import Mathlib

/-!
Shallow embedding of the `rest_apscheduler` job store
(`rest_apscheduler/jobstore.py`, `rest_apscheduler/models.py`).

Timestamps are modelled as `Nat` (a nullable timestamp as `Option Nat`).
The Django database is modelled as an explicit state record holding the
rows of the two tables in insertion order; ORM queries become list
operations, `Meta.ordering` becomes a stable merge sort, and Python
exceptions become the error side of `Except`.
-/

namespace RestAPScheduler

/-- Trigger classification tags, from `TRIGGER_TYPE` in `models.py` and the
`type(job.trigger)` dispatch in `DjangoJobStore.add_job`. -/
inductive TriggerType
  | date
  | interval
  | cron
  | other
deriving DecidableEq, Repr

/-- Logical state of an APScheduler job as seen by the store: the unique id,
the next scheduled run time (none when paused), the trigger classification,
and an opaque payload standing for the invocation target, arguments and
trigger configuration captured by `job.__getstate__()`. -/
structure JobState where
  jid : String
  next_run_time : Option Nat
  trigger : TriggerType
  payload : Nat
deriving DecidableEq, Repr

/-- Modelled from the spec: the wire format of `pickle` is an external,
opaque byte blob (spec section 1 and section 4.1). A blob is either the
encoding of a job state, an undecodable (corrupt) non-empty byte string,
or the empty byte string (which is falsy in Python). -/
inductive Blob
  | encoded : JobState → Blob
  | corrupt : Nat → Blob
  | empty : Blob
deriving DecidableEq, Repr

/-- Modelled from the spec: `pickle.dumps(job.__getstate__(), protocol)`;
serialisation always succeeds and never produces the empty byte string. -/
def pickle_dumps (s : JobState) : Blob := Blob.encoded s

/-- Modelled from the spec: `pickle.loads`; returns the decoded job state,
or `none` when the blob does not decode (a raised exception in Python). -/
def pickle_loads : Blob → Option JobState
  | Blob.encoded s => some s
  | Blob.corrupt _ => none
  | Blob.empty => none

/-- Python truthiness of a byte string: only the empty byte string is falsy
(used by `lookup_job`: `if job_state`). -/
def Blob.isTruthy : Blob → Bool
  | Blob.empty => false
  | _ => true

/-- Row of the `DjangoJob` table (`models.py`): primary-key id, nullable
indexed `next_run_time`, trigger tag, and the serialized state blob. -/
structure DjangoJob where
  id : String
  next_run_time : Option Nat
  trigger : String
  job_state : Blob
deriving DecidableEq, Repr

/-- Row of the `DjangoJobExecution` table (`models.py`). The `job` column
is a plain `CharField` holding a job id; it is not a foreign key and has
no `on_delete` behaviour. -/
structure DjangoJobExecution where
  id : Nat
  job : String
  status : String
  run_time : Option Nat
  type : String
  finished : Option Nat
  exception : Option String
  traceback : Option String
deriving DecidableEq, Repr

/-- Status string `DjangoJobExecution.START`. -/
def statusSTART : String := "Job Added"

/-- Status string `DjangoJobExecution.SUCCESS`. -/
def statusSUCCESS : String := "Executed"

/-- Status string `DjangoJobExecution.MISSED`. -/
def statusMISSED : String := "Missed!"

/-- Status string `DjangoJobExecution.ERROR`. -/
def statusERROR : String := "Error!"

/-- The Django database state: the rows of the two tables in insertion
order, plus the next value of the `BigAutoField` id of the execution
table. -/
structure DB where
  jobs : List DjangoJob
  executions : List DjangoJobExecution
  nextExecId : Nat
deriving DecidableEq, Repr

/-- Errors raised by the store and the event handlers: `ConflictingIdError`,
`JobLookupError`, a Django `DoesNotExist` escaping uncaught, Django
`MultipleObjectsReturned`, Python `NotImplementedError`, and an unpickling
exception escaping from `_reconstitute_job`. -/
inductive StoreError
  | conflictingId : String → StoreError
  | jobLookup : String → StoreError
  | doesNotExist : String → StoreError
  | multipleObjectsReturned : String → StoreError
  | notImplemented : StoreError
  | unpickle : StoreError
deriving DecidableEq, Repr

/-- Scheduler lifecycle event codes handled by the event bridge
(`register_event_listeners`). -/
inductive EventCode
  | added
  | executed
  | error
  | missed
  | modified
deriving DecidableEq, Repr

/-- A scheduler lifecycle event: code, job id, and for error events an
optional exception summary and a traceback text. -/
structure JobEvent where
  code : EventCode
  job_id : String
  exception : Option String
  traceback : String
deriving DecidableEq, Repr

/-- Modelled from the spec: `get_django_internal_datetime` from the
repository's `util` module (not under the provided sources); the spec
places timezone conversion out of scope, so it is the identity on
timestamps. -/
def get_django_internal_datetime (t : Nat) : Nat := t

/-- Modelled from the spec: `get_apscheduler_datetime` from the
repository's `util` module; identity on timestamps, as above. -/
def get_apscheduler_datetime (t : Nat) : Nat := t

/-- Comparison used by the database ordering `Meta.ordering =
("next_run_time",)`: ascending with null as the minimum (spec section 4.2:
"the natural sort of null-as-minimum"). -/
def nrtLe (a b : Option Nat) : Bool :=
  match a, b with
  | none, _ => true
  | some _, none => false
  | some x, some y => x ≤ y

/-- A queryset over `DjangoJob` respecting `Meta.ordering`: the rows
stably sorted by `next_run_time`, nulls first. -/
def DB.orderedJobs (db : DB) : List DjangoJob :=
  db.jobs.mergeSort (fun a b => nrtLe a.next_run_time b.next_run_time)

/-- ORM lookup `DjangoJob.objects.get(id=jid)`: `some` row or `none` for
`DjangoJob.DoesNotExist` (the id column is the primary key, so multiple
rows cannot occur). -/
def DB.getJob (db : DB) (jid : String) : Option DjangoJob :=
  db.jobs.find? (fun j => j.id == jid)

/-- All execution rows whose `job` column equals the given job id. -/
def DB.execsFor (db : DB) (jid : String) : List DjangoJobExecution :=
  db.executions.filter (fun e => e.job == jid)

/-- ORM lookup `DjangoJobExecution.objects.get(job=jid)`: the unique
matching row, `DoesNotExist` when there is none, `MultipleObjectsReturned`
when there are several. -/
def DB.getExecution (db : DB) (jid : String) :
    Except StoreError (Option DjangoJobExecution) :=
  match db.execsFor jid with
  | [] => Except.ok none
  | [e] => Except.ok (some e)
  | _ => Except.error (StoreError.multipleObjectsReturned jid)

/-- Saving a loaded `DjangoJobExecution` instance: the row with the
instance's primary key is replaced. -/
def DB.saveExecution (db : DB) (e : DjangoJobExecution) : DB :=
  { db with executions := db.executions.map (fun x => if x.id == e.id then e else x) }

/-- Bulk delete `DjangoJob.objects.filter(id__in=ids).delete()`. The
execution table is untouched: `DjangoJobExecution.job` is a plain
`CharField`, so the database has no cascading constraint from jobs to
executions. -/
def DB.deleteJobs (db : DB) (ids : List String) : DB :=
  { db with jobs := db.jobs.filter (fun j => !(ids.contains j.id)) }

/-- Body of `DjangoJobStore._reconstitute_job`: unpickle the state blob and
rebuild the job object (the scheduler and alias attributes it also sets
are not part of the logical state). `none` means the unpickling raised. -/
def reconstitute_job (b : Blob) : Option JobState := pickle_loads b

/-- Body of `DjangoJobStore.lookup_job`: fetch the row by id, return `none`
on `DoesNotExist`; when the row exists, reconstitute the state when the
blob is truthy and return `None` when it is empty. A decode failure inside
`_reconstitute_job` is not caught here and escapes to the caller. -/
def lookup_job (db : DB) (jid : String) : Except StoreError (Option JobState) :=
  match db.getJob jid with
  | none => Except.ok none
  | some row =>
    if row.job_state.isTruthy then
      match reconstitute_job row.job_state with
      | some s => Except.ok (some s)
      | none => Except.error StoreError.unpickle
    else
      Except.ok none

/-- The loop body of `DjangoJobStore._get_jobs`: walk the fetched rows in
order, reconstituting each; a row whose blob fails to decode is skipped
and its id recorded in `failed_job_ids`. -/
def scanRows : List DjangoJob → List JobState × List String
  | [] => ([], [])
  | row :: rest =>
    match reconstitute_job row.job_state with
    | some s => (s :: (scanRows rest).1, (scanRows rest).2)
    | none => ((scanRows rest).1, row.id :: (scanRows rest).2)

/-- Body of `DjangoJobStore._get_jobs`: fetch the rows matching the filter
in queryset order, reconstitute them, and delete every row that failed to
restore. Returns the reconstituted jobs together with the database after
the quarantine deletion. -/
def get_jobs_filtered (db : DB) (p : DjangoJob → Bool) : List JobState × DB :=
  let rows := db.orderedJobs.filter p
  let scanned := scanRows rows
  (scanned.1, if scanned.2.isEmpty then db else db.deleteJobs scanned.2)

/-- The queryset filter `next_run_time__lte=dt`: SQL `<=` is null-rejecting,
so rows with a null `next_run_time` never match. -/
def dueFilter (dt : Nat) (j : DjangoJob) : Bool :=
  match j.next_run_time with
  | none => false
  | some t => t ≤ dt

/-- Body of `DjangoJobStore.get_due_jobs`. -/
def get_due_jobs (db : DB) (now : Nat) : List JobState × DB :=
  get_jobs_filtered db (dueFilter (get_django_internal_datetime now))

/-- Body of `DjangoJobStore.get_next_run_time`: `earliest("next_run_time")`
over the rows with a non-null `next_run_time`, i.e. the head of that
queryset ordered ascending; `DoesNotExist` on an empty queryset is caught
and turned into `none`. -/
def get_next_run_time (db : DB) : Option Nat :=
  let filtered := db.jobs.filter (fun j => j.next_run_time.isSome)
  let sorted := filtered.mergeSort (fun a b => nrtLe a.next_run_time b.next_run_time)
  match sorted.head? with
  | some j => j.next_run_time.map get_apscheduler_datetime
  | none => none

/-- Modelled from the spec: `BaseJobStore._fix_paused_jobs_sorting` from the
external `apscheduler` dependency, per spec section 4.2: paused jobs (null
`next_run_time`), which the natural null-as-minimum sort placed first, are
moved to the end. The leading run of paused jobs up to the first scheduled
job is rotated to the back of the list. -/
def fix_paused_jobs_sorting (jobs : List JobState) : List JobState :=
  let i := jobs.findIdx (fun j => j.next_run_time.isSome)
  if i < jobs.length then jobs.drop i ++ jobs.take i else jobs

/-- Body of `DjangoJobStore.get_all_jobs`: an unfiltered `_get_jobs` scan
followed by `_fix_paused_jobs_sorting`. -/
def get_all_jobs (db : DB) : List JobState × DB :=
  let r := get_jobs_filtered db (fun _ => true)
  (fix_paused_jobs_sorting r.1, r.2)

/-- The `type(job.trigger)` dispatch in `DjangoJobStore.add_job`. -/
def trigger_type_of : TriggerType → String
  | TriggerType.date => "DATE"
  | TriggerType.interval => "INTERVAL"
  | TriggerType.cron => "CRON"
  | TriggerType.other => ""

/-- Body of `DjangoJobStore.add_job`: inside a transaction, insert a new
row; the primary-key `IntegrityError` on a duplicate id is turned into
`ConflictingIdError` and the transaction rolls back. On success the new
row is returned together with the new database state. -/
def add_job (db : DB) (job : JobState) : Except StoreError (DB × DjangoJob) :=
  if db.jobs.any (fun j => j.id == job.jid) then
    Except.error (StoreError.conflictingId job.jid)
  else
    let row : DjangoJob :=
      { id := job.jid
        next_run_time := job.next_run_time.map get_django_internal_datetime
        trigger := trigger_type_of job.trigger
        job_state := pickle_dumps job }
    Except.ok ({ db with jobs := db.jobs ++ [row] }, row)

/-- Database state observed after `add_job` returns or raises: the
`transaction.atomic()` block leaves the database unchanged when the call
ends in an error. -/
def afterAdd (db : DB) (job : JobState) : DB :=
  match add_job db job with
  | Except.ok p => p.1
  | Except.error _ => db

/-- Body of `DjangoJobStore.update_job`: fetch the row by the job's id,
replace its `next_run_time` and `job_state` and save; `DoesNotExist`
becomes `JobLookupError`. -/
def update_job (db : DB) (job : JobState) : Except StoreError DB :=
  match db.getJob job.jid with
  | some _ =>
    Except.ok { db with
      jobs := db.jobs.map (fun j =>
        if j.id == job.jid then
          { j with next_run_time := job.next_run_time.map get_django_internal_datetime
                   job_state := pickle_dumps job }
        else j) }
  | none => Except.error (StoreError.jobLookup job.jid)

/-- Body of `DjangoJobStore.remove_job`: delete the row by id;
`DoesNotExist` becomes `JobLookupError`. No cascade touches the execution
table, whose `job` column is a plain `CharField`. -/
def remove_job (db : DB) (jid : String) : Except StoreError DB :=
  match db.getJob jid with
  | some _ => Except.ok { db with jobs := db.jobs.filter (fun j => !(j.id == jid)) }
  | none => Except.error (StoreError.jobLookup jid)

/-- Body of `DjangoJobStore.remove_all_jobs`:
`DjangoJob.objects.all().delete()`. The comment in the source claims the
executions are cascade-deleted, but the schema has no foreign key from
`DjangoJobExecution.job` to `DjangoJob`, so the execution rows survive. -/
def remove_all_jobs (db : DB) : DB :=
  { db with jobs := [] }

/-- Body of `DjangoResultStoreMixin.handle_execution_event`: on any event
code other than `EVENT_JOB_EXECUTED` raise `NotImplementedError`; otherwise
fetch the execution row for the job id, set status `SUCCESS` and
`finished = now` and save, returning its id; `DoesNotExist` is caught with
a warning and `None` is returned. -/
def handle_execution_event (db : DB) (now : Nat) (ev : JobEvent) :
    Except StoreError (DB × Option Nat) :=
  if ev.code ≠ EventCode.executed then
    Except.error StoreError.notImplemented
  else
    match db.getExecution ev.job_id with
    | Except.error e => Except.error e
    | Except.ok none => Except.ok (db, none)
    | Except.ok (some ex) =>
      let ex2 := { ex with status := statusSUCCESS, finished := some now }
      Except.ok (db.saveExecution ex2, some ex.id)

/-- Body of `DjangoResultStoreMixin.handle_error_event`: for
`EVENT_JOB_ERROR`, compute the exception text and traceback from the event
(or a synthetic message when the event carries no exception), then update
the execution row to status `ERROR`; for `EVENT_JOB_MISSED`, update it to
status `MISSED` with a synthetic message; in either case `DoesNotExist` is
caught with a warning and `None` returned. Any other code raises
`NotImplementedError`. -/
def handle_error_event (db : DB) (ev : JobEvent) :
    Except StoreError (DB × Option Nat) :=
  if ev.code = EventCode.error then
    let exc : String :=
      match ev.exception with
      | some e => e
      | none => "Job " ++ ev.job_id ++ " raised an error!"
    let tb : Option String :=
      match ev.exception with
      | some _ => some ev.traceback
      | none => none
    match db.getExecution ev.job_id with
    | Except.error e => Except.error e
    | Except.ok none => Except.ok (db, none)
    | Except.ok (some ex) =>
      let ex2 := { ex with status := statusERROR, exception := some exc, traceback := tb }
      Except.ok (db.saveExecution ex2, some ex.id)
  else if ev.code = EventCode.missed then
    let exc : String := "Run time of job " ++ ev.job_id ++ " was missed!"
    match db.getExecution ev.job_id with
    | Except.error e => Except.error e
    | Except.ok none => Except.ok (db, none)
    | Except.ok (some ex) =>
      let ex2 := { ex with status := statusMISSED, exception := some exc }
      Except.ok (db.saveExecution ex2, some ex.id)
  else
    Except.error StoreError.notImplemented

/-- Body of `DjangoResultStoreMixin.handle_added_job_event`: first fetch
the job row by the event's job id with a bare `DjangoJob.objects.get` — a
missing job row raises `DjangoJob.DoesNotExist`, which nothing here
catches. Then reset the existing execution row (status `START`, run time
now, the job's trigger tag) when one exists, or create a fresh row when
`DjangoJobExecution.DoesNotExist` is caught. The fresh row created by
`DjangoJobExecution.objects.create` is `newExecution`. -/
def newExecution (db : DB) (jid : String) (now : Nat) (trig : String) :
    DjangoJobExecution :=
  { id := db.nextExecId
    job := jid
    status := statusSTART
    run_time := some now
    type := trig
    finished := none
    exception := none
    traceback := none }

def handle_added_job_event (db : DB) (now : Nat) (ev : JobEvent) :
    Except StoreError (DB × Nat) :=
  match db.getJob ev.job_id with
  | none => Except.error (StoreError.doesNotExist ev.job_id)
  | some job =>
    match db.getExecution ev.job_id with
    | Except.error e => Except.error e
    | Except.ok (some ex) =>
      let ex2 := { ex with status := statusSTART, run_time := some now, type := job.trigger }
      Except.ok (db.saveExecution ex2, ex.id)
    | Except.ok none =>
      Except.ok ({ db with
        executions := db.executions ++ [newExecution db ev.job_id now job.trigger],
        nextExecId := db.nextExecId + 1 }, db.nextExecId)

/-- Body of `DjangoResultStoreMixin.handle_modify_event`: fetch the
execution row for the job id — `DjangoJobExecution.DoesNotExist` is caught
with a warning and `None` returned — then fetch the job row with a bare
`DjangoJob.objects.get`, whose `DjangoJob.DoesNotExist` the handler's
`except` clause does not match and therefore escapes; finally copy the
job's `next_run_time` into the execution row's `run_time` and save. -/
def handle_modify_event (db : DB) (ev : JobEvent) :
    Except StoreError (DB × Option Nat) :=
  match db.getExecution ev.job_id with
  | Except.error e => Except.error e
  | Except.ok none => Except.ok (db, none)
  | Except.ok (some ex) =>
    match db.getJob ev.job_id with
    | none => Except.error (StoreError.doesNotExist ev.job_id)
    | some job =>
      let ex2 := { ex with run_time := job.next_run_time }
      Except.ok (db.saveExecution ex2, some ex.id)

/-- Primary-key constraint of the `DjangoJob` table: ids are unique. -/
def jobIdsUnique (db : DB) : Prop := (db.jobs.map DjangoJob.id).Nodup

/-- A row whose state blob decodes, and decodes to a state agreeing with
the row's `id` and `next_run_time` columns: the shape `add_job` and
`update_job` always write. -/
def consistentRow (j : DjangoJob) : Prop :=
  ∃ s, reconstitute_job j.job_state = some s ∧
    s.jid = j.id ∧ s.next_run_time = j.next_run_time

/-- Every stored row is consistent. -/
def consistent (db : DB) : Prop := ∀ j ∈ db.jobs, consistentRow j

/-- At most one execution row per job id. -/
def execsUnique (db : DB) : Prop := ∀ jid, (db.execsFor jid).length ≤ 1

/-- Discipline maintained by the autoincrement primary key of the
execution table: ids are unique and below the next id to be handed out. -/
def execTableWF (db : DB) : Prop :=
  (db.executions.map DjangoJobExecution.id).Nodup ∧
  ∀ e ∈ db.executions, e.id < db.nextExecId

/-- Job ids that a `_get_jobs` scan with the given filter logs as failed
and deletes. -/
def scanFailures (db : DB) (p : DjangoJob → Bool) : List String :=
  (scanRows (db.orderedJobs.filter p)).2

/-- Ordering of job states mirroring the row ordering `nrtLe`. -/
def stateNrtLe (a b : JobState) : Prop :=
  nrtLe a.next_run_time b.next_run_time = true

/-- Ordering demanded of `get_all_jobs`: ascending among scheduled jobs,
and no paused job (null `next_run_time`) before a scheduled one. -/
def pausedLastLe (a b : JobState) : Prop :=
  match b.next_run_time with
  | none => True
  | some x =>
    match a.next_run_time with
    | some y => y ≤ x
    | none => False

theorem nrtLe_trans (a b c : Option Nat) (h1 : nrtLe a b = true)
    (h2 : nrtLe b c = true) : nrtLe a c = true := by
  cases a <;> cases b <;> cases c <;> simp_all [nrtLe]
  omega

theorem nrtLe_total (a b : Option Nat) : (nrtLe a b || nrtLe b a) = true := by
  cases a <;> cases b <;> simp [nrtLe]
  omega

theorem orderedJobs_perm (db : DB) : db.orderedJobs.Perm db.jobs :=
  List.mergeSort_perm _ _

theorem orderedJobs_sorted (db : DB) :
    db.orderedJobs.Pairwise (fun a b => nrtLe a.next_run_time b.next_run_time = true) :=
  List.sorted_mergeSort
    (fun a b c h1 h2 => nrtLe_trans a.next_run_time b.next_run_time c.next_run_time h1 h2)
    (fun a b => nrtLe_total a.next_run_time b.next_run_time)
    db.jobs

theorem scanRows_fst_mem {rows : List DjangoJob} {s : JobState}
    (h : s ∈ (scanRows rows).1) :
    ∃ r ∈ rows, reconstitute_job r.job_state = some s := by
  induction rows with
  | nil => simp [scanRows] at h
  | cons r rest ih =>
    cases hd : reconstitute_job r.job_state with
    | some s0 =>
      simp only [scanRows, hd] at h
      rcases List.mem_cons.mp h with h | h
      · exact ⟨r, by simp, by rw [hd, h]⟩
      · obtain ⟨r2, hr2, hdec⟩ := ih h
        exact ⟨r2, by simp [hr2], hdec⟩
    | none =>
      simp only [scanRows, hd] at h
      obtain ⟨r2, hr2, hdec⟩ := ih h
      exact ⟨r2, by simp [hr2], hdec⟩

theorem scanRows_snd (rows : List DjangoJob) :
    (scanRows rows).2 =
      (rows.filter (fun r => (reconstitute_job r.job_state).isNone)).map DjangoJob.id := by
  induction rows with
  | nil => rfl
  | cons r rest ih =>
    cases hd : reconstitute_job r.job_state with
    | some s0 => simp [scanRows, hd, List.filter_cons, ih]
    | none => simp [scanRows, hd, List.filter_cons, ih]

theorem scanRows_all_ok (rows : List DjangoJob)
    (h : ∀ r ∈ rows, (reconstitute_job r.job_state).isSome) :
    scanRows rows = (rows.filterMap (fun r => reconstitute_job r.job_state), []) := by
  induction rows with
  | nil => rfl
  | cons r rest ih =>
    have hr := h r (by simp)
    obtain ⟨s, hs⟩ := Option.isSome_iff_exists.mp hr
    have ih2 := ih (fun x hx => h x (by simp [hx]))
    simp [scanRows, hs, List.filterMap_cons, ih2]

theorem get_jobs_filtered_all_ok (db : DB) (p : DjangoJob → Bool)
    (hc : consistent db) :
    get_jobs_filtered db p =
      ((db.orderedJobs.filter p).filterMap (fun r => reconstitute_job r.job_state), db) := by
  have hall : ∀ r ∈ db.orderedJobs.filter p, (reconstitute_job r.job_state).isSome := by
    intro r hr
    have hr2 : r ∈ db.jobs :=
      (orderedJobs_perm db).mem_iff.mp (List.mem_of_mem_filter hr)
    obtain ⟨s, hs, _, _⟩ := hc r hr2
    simp [hs]
  simp [get_jobs_filtered, scanRows_all_ok _ hall]

theorem pairwise_filterMap_of {α β : Type} (f : α → Option β)
    {R : α → α → Prop} {S : β → β → Prop}
    (hf : ∀ a b, R a b → ∀ x, f a = some x → ∀ y, f b = some y → S x y) :
    ∀ {l : List α}, l.Pairwise R → (l.filterMap f).Pairwise S := by
  intro l h
  induction l with
  | nil => simp
  | cons a l ih =>
    rcases List.pairwise_cons.mp h with ⟨ha, hl⟩
    cases hfa : f a with
    | none => simpa [List.filterMap_cons, hfa] using ih hl
    | some b =>
      simp only [List.filterMap_cons, hfa]
      refine List.Pairwise.cons ?_ (ih hl)
      intro y hy
      obtain ⟨a2, ha2, hfa2⟩ := List.mem_filterMap.mp hy
      exact hf a a2 (ha a2 ha2) b hfa y hfa2

theorem states_sorted (db : DB) (p : DjangoJob → Bool) (hc : consistent db) :
    ((db.orderedJobs.filter p).filterMap
      (fun r => reconstitute_job r.job_state)).Pairwise stateNrtLe := by
  have hrows : (db.orderedJobs.filter p).Pairwise
      (fun a b => nrtLe a.next_run_time b.next_run_time = true) :=
    (orderedJobs_sorted db).filter p
  have hrows2 : (db.orderedJobs.filter p).Pairwise
      (fun a b => ∀ x, reconstitute_job a.job_state = some x →
        ∀ y, reconstitute_job b.job_state = some y → stateNrtLe x y) := by
    refine hrows.imp_of_mem ?_
    intro a b ha hb hab x hx y hy
    have ha2 : a ∈ db.jobs :=
      (orderedJobs_perm db).mem_iff.mp (List.mem_of_mem_filter ha)
    have hb2 : b ∈ db.jobs :=
      (orderedJobs_perm db).mem_iff.mp (List.mem_of_mem_filter hb)
    obtain ⟨sa, hsa, _, hna⟩ := hc a ha2
    obtain ⟨sb, hsb, _, hnb⟩ := hc b hb2
    have hxa : x = sa := by rw [hx] at hsa; exact Option.some.inj hsa
    have hyb : y = sb := by rw [hy] at hsb; exact Option.some.inj hsb
    subst hxa hyb
    unfold stateNrtLe
    rw [hna, hnb]
    exact hab
  exact pairwise_filterMap_of _ (fun a b hab x hx y hy => hab x hx y hy) hrows2

theorem states_perm (db : DB) (p : DjangoJob → Bool) :
    ((db.orderedJobs.filter p).filterMap
        (fun r => reconstitute_job r.job_state)).Perm
      ((db.jobs.filter p).filterMap (fun r => reconstitute_job r.job_state)) :=
  ((orderedJobs_perm db).filter p).filterMap _

theorem filterMap_nrt_filter (l : List DjangoJob) :
    (l.filter (fun j => j.next_run_time.isSome)).filterMap
        (fun j => j.next_run_time) =
      l.filterMap (fun j => j.next_run_time) := by
  induction l with
  | nil => rfl
  | cons j l ih =>
    cases hj : j.next_run_time with
    | none => simp [List.filter_cons, List.filterMap_cons, hj, ih]
    | some t => simp [List.filter_cons, List.filterMap_cons, hj, ih]

theorem getExecution_ok_none {db : DB} {jid : String}
    (h : db.getExecution jid = Except.ok none) : db.execsFor jid = [] := by
  unfold DB.getExecution at h
  cases he : db.execsFor jid with
  | nil => rfl
  | cons e rest =>
    cases rest with
    | nil => rw [he] at h; exact absurd (Except.ok.inj h) (by simp)
    | cons e2 rest2 => rw [he] at h; exact absurd h (by simp)

theorem getExecution_ok_some {db : DB} {jid : String} {ex : DjangoJobExecution}
    (h : db.getExecution jid = Except.ok (some ex)) : db.execsFor jid = [ex] := by
  unfold DB.getExecution at h
  cases he : db.execsFor jid with
  | nil => rw [he] at h; exact absurd (Except.ok.inj h) (by simp)
  | cons e rest =>
    cases rest with
    | nil =>
      rw [he] at h
      have := Option.some.inj (Except.ok.inj h)
      rw [this]
    | cons e2 rest2 => rw [he] at h; exact absurd h (by simp)

theorem execsFor_mem {db : DB} {jid : String} {ex : DjangoJobExecution}
    (h : db.execsFor jid = [ex]) : ex ∈ db.executions ∧ ex.job = jid := by
  have hm : ex ∈ db.executions.filter (fun e => e.job == jid) := by
    unfold DB.execsFor at h
    rw [h]
    simp
  refine ⟨List.mem_of_mem_filter hm, ?_⟩
  have := List.of_mem_filter hm
  exact eq_of_beq this

theorem length_filter_map_eq {α : Type} (f : α → α) (p : α → Bool)
    (l : List α) (h : ∀ x ∈ l, p (f x) = p x) :
    ((l.map f).filter p).length = (l.filter p).length := by
  induction l with
  | nil => rfl
  | cons a l ih =>
    have ha := h a (by simp)
    have ih2 := ih (fun x hx => h x (List.mem_cons_of_mem _ hx))
    simp only [List.map_cons, List.filter_cons, ha]
    cases hpa : p a <;> simp [ih2]

theorem saveExecution_execsFor_length (db : DB) (ex ex2 : DjangoJobExecution)
    (hnodup : (db.executions.map DjangoJobExecution.id).Nodup)
    (hmem : ex ∈ db.executions) (hid : ex2.id = ex.id) (hjob : ex2.job = ex.job)
    (jid : String) :
    ((db.saveExecution ex2).execsFor jid).length = (db.execsFor jid).length := by
  unfold DB.saveExecution DB.execsFor
  apply length_filter_map_eq
  intro x hx
  by_cases hxe : x.id = ex2.id
  · have hxex : x = ex :=
      List.inj_on_of_nodup_map hnodup hx hmem (by rw [hxe, hid])
    simp only [hxe, beq_self_eq_true, if_true]
    rw [hjob, hxex]
  · simp [hxe]

theorem saveExecution_ids (db : DB) (ex2 : DjangoJobExecution) :
    (db.saveExecution ex2).executions.map DjangoJobExecution.id =
      db.executions.map DjangoJobExecution.id := by
  unfold DB.saveExecution
  simp only [List.map_map]
  apply List.map_congr_left
  intro x _
  by_cases hxe : x.id = ex2.id
  · simp [Function.comp, hxe]
  · simp [Function.comp, hxe]

theorem saveExecution_wf (db : DB) (ex ex2 : DjangoJobExecution)
    (hwf : execTableWF db) (hmem : ex ∈ db.executions) (hid : ex2.id = ex.id) :
    execTableWF (db.saveExecution ex2) := by
  obtain ⟨hnodup, hbound⟩ := hwf
  constructor
  · rw [saveExecution_ids db ex2]
    exact hnodup
  · intro e he
    unfold DB.saveExecution at he
    simp only [List.mem_map] at he
    obtain ⟨x, hx, hfx⟩ := he
    by_cases hxe : x.id = ex2.id
    · have : e = ex2 := by rw [← hfx]; simp [hxe]
      rw [this]
      show ex2.id < db.nextExecId
      rw [hid]
      exact hbound ex hmem
    · have : e = x := by rw [← hfx]; simp [hxe]
      rw [this]
      exact hbound x hx

/-- Sample job state used by concrete instances. -/
def stateA : JobState :=
  { jid := "a", next_run_time := some 5, trigger := TriggerType.date, payload := 0 }

/-- The `DjangoJob` row `add_job` writes for `stateA`. -/
def jobRowA : DjangoJob :=
  { id := "a", next_run_time := some 5, trigger := "DATE",
    job_state := pickle_dumps stateA }

/-- A sample execution row for job id "a". -/
def execRowA : DjangoJobExecution :=
  { id := 0, job := "a", status := statusSTART, run_time := some 1,
    type := "DATE", finished := none, exception := none, traceback := none }

/-- A database holding job "a" and its execution row. -/
def dbA : DB := { jobs := [jobRowA], executions := [execRowA], nextExecId := 1 }

/-- A row whose state blob does not decode. -/
def jobRowCorrupt : DjangoJob :=
  { id := "c", next_run_time := some 3, trigger := "DATE", job_state := Blob.corrupt 0 }

/-- A row whose state blob is the empty byte string. -/
def jobRowEmpty : DjangoJob :=
  { id := "e", next_run_time := some 4, trigger := "DATE", job_state := Blob.empty }

/-- A database holding the corrupt and the empty-blob rows. -/
def dbC : DB := { jobs := [jobRowCorrupt, jobRowEmpty], executions := [], nextExecId := 0 }

/-- Sample paused job state (null `next_run_time`). -/
def stateP : JobState :=
  { jid := "p", next_run_time := none, trigger := TriggerType.other, payload := 1 }

/-- The `DjangoJob` row for the paused job `stateP`. -/
def jobRowP : DjangoJob :=
  { id := "p", next_run_time := none, trigger := "", job_state := pickle_dumps stateP }

/-- C1: the schema has no foreign key from `DjangoJobExecution.job` to
`DjangoJob` — the column is a plain `CharField` — so, contrary to the
comment in `remove_all_jobs` claiming a cascade via
`on_delete=models.CASCADE`, deleting a job (or all jobs) leaves its
execution rows in place: after `remove_all_jobs` the job table is empty
and `get_all_jobs` returns nothing, but the execution record for "a"
survives, and `remove_job "a"` likewise strands it. -/
theorem C1_remove_leaves_executions :
    remove_all_jobs dbA = { jobs := [], executions := [execRowA], nextExecId := 1 } ∧
    (get_all_jobs (remove_all_jobs dbA)).1 = [] ∧
    (remove_all_jobs dbA).executions ≠ [] ∧
    remove_job dbA "a" =
      Except.ok { jobs := [], executions := [execRowA], nextExecId := 1 } := by
  refine ⟨rfl, ?_, by simp [remove_all_jobs, dbA], rfl⟩
  simp [remove_all_jobs, get_all_jobs, get_jobs_filtered, DB.orderedJobs,
    scanRows, fix_paused_jobs_sorting]

/-- C2 counterexample: an ADDED lifecycle event whose job id has no
matching job record does not recover locally — `handle_added_job_event`
performs a bare `DjangoJob.objects.get`, so `DjangoJob.DoesNotExist`
propagates to the scheduler instead of a warning log and no-op. -/
theorem C2_added_event_missing_job_raises :
    handle_added_job_event { jobs := [], executions := [], nextExecId := 0 } 0
        { code := EventCode.added, job_id := "ghost", exception := none, traceback := "" } =
      Except.error (StoreError.doesNotExist "ghost") := rfl

/-- C2 (amended): for EXECUTED, ERROR, MISSED and MODIFIED events whose job
id has no matching execution record, the handler logs a warning, changes
no state and returns without raising; but an ADDED event whose job id has
no matching job record raises `DjangoJob.DoesNotExist` to the scheduler. -/
theorem C2_missing_record_recovery (db : DB) (now : Nat) (ev : JobEvent)
    (h : db.execsFor ev.job_id = []) :
    (ev.code = EventCode.executed →
      handle_execution_event db now ev = Except.ok (db, none)) ∧
    ((ev.code = EventCode.error ∨ ev.code = EventCode.missed) →
      handle_error_event db ev = Except.ok (db, none)) ∧
    handle_modify_event db ev = Except.ok (db, none) ∧
    (db.getJob ev.job_id = none →
      handle_added_job_event db now ev = Except.error (StoreError.doesNotExist ev.job_id)) := by
  have hge : db.getExecution ev.job_id = Except.ok none := by
    unfold DB.getExecution
    rw [h]
  refine ⟨?_, ?_, ?_, ?_⟩
  · intro hc
    simp [handle_execution_event, hc, hge]
  · intro hc
    rcases hc with hc | hc
    · simp [handle_error_event, hc, hge]
    · simp [handle_error_event, hc, hge]
  · simp [handle_modify_event, hge]
  · intro hj
    simp [handle_added_job_event, hj]

/-- C2 witness: on the empty database, the EXECUTED and MODIFIED handlers
for job id "a" return without error and leave the state unchanged. -/
theorem C2_missing_record_recovery_witness :
    DB.execsFor { jobs := [], executions := [], nextExecId := 0 } "a" = [] ∧
    handle_execution_event { jobs := [], executions := [], nextExecId := 0 } 5
        { code := EventCode.executed, job_id := "a", exception := none, traceback := "" } =
      Except.ok ({ jobs := [], executions := [], nextExecId := 0 }, none) ∧
    handle_modify_event { jobs := [], executions := [], nextExecId := 0 }
        { code := EventCode.modified, job_id := "a", exception := none, traceback := "" } =
      Except.ok ({ jobs := [], executions := [], nextExecId := 0 }, none) :=
  ⟨rfl,
    (C2_missing_record_recovery { jobs := [], executions := [], nextExecId := 0 } 5
      { code := EventCode.executed, job_id := "a", exception := none, traceback := "" }
      rfl).1 rfl,
    (C2_missing_record_recovery { jobs := [], executions := [], nextExecId := 0 } 0
      { code := EventCode.modified, job_id := "a", exception := none, traceback := "" }
      rfl).2.2.1⟩

/-- C4: when `add_job` succeeds, looking up the job's id afterwards returns
a job decoding to exactly the logical state that was encoded on add. -/
theorem C4_add_lookup_roundtrip (db : DB) (job : JobState) (db2 : DB)
    (row : DjangoJob) (h : add_job db job = Except.ok (db2, row)) :
    lookup_job db2 job.jid = Except.ok (some job) := by
  unfold add_job at h
  by_cases hdup : db.jobs.any (fun j => j.id == job.jid)
  · rw [if_pos hdup] at h
    exact absurd h (by simp)
  · rw [if_neg hdup] at h
    have hpair := Except.ok.inj h
    have hdb2 := (Prod.mk.injEq _ _ _ _).mp hpair
    have hnone : db.jobs.find? (fun j => j.id == job.jid) = none := by
      rw [List.find?_eq_none]
      intro x hx hbeq
      exact hdup (List.any_eq_true.mpr ⟨x, hx, hbeq⟩)
    rw [← hdb2.1]
    unfold lookup_job DB.getJob
    simp [List.find?_append, hnone, pickle_dumps, reconstitute_job,
      pickle_loads, Blob.isTruthy]

/-- C4 witness: adding `stateA` to the empty database and looking up its id
returns `stateA` again. -/
theorem C4_add_lookup_roundtrip_witness :
    add_job { jobs := [], executions := [], nextExecId := 0 } stateA =
      Except.ok ({ jobs := [jobRowA], executions := [], nextExecId := 0 }, jobRowA) ∧
    lookup_job { jobs := [jobRowA], executions := [], nextExecId := 0 } stateA.jid =
      Except.ok (some stateA) :=
  ⟨rfl,
    C4_add_lookup_roundtrip { jobs := [], executions := [], nextExecId := 0 } stateA
      { jobs := [jobRowA], executions := [], nextExecId := 0 } jobRowA rfl⟩

/-- C5: when a record with the job's id is already stored, `add_job` fails
with `ConflictingIdError` and the transaction leaves the database exactly
as it was. -/
theorem C5_duplicate_add_conflicts (db : DB) (job : JobState)
    (h : ∃ r ∈ db.jobs, r.id = job.jid) :
    add_job db job = Except.error (StoreError.conflictingId job.jid) ∧
    afterAdd db job = db := by
  have hany : db.jobs.any (fun j => j.id == job.jid) = true := by
    rcases h with ⟨r, hr, hid⟩
    exact List.any_eq_true.mpr ⟨r, hr, beq_iff_eq.mpr hid⟩
  constructor
  · unfold add_job
    rw [if_pos hany]
  · unfold afterAdd add_job
    rw [if_pos hany]

/-- C5 witness: adding `stateA` on top of `dbA`, which already stores a row
with id "a", fails with `ConflictingIdError "a"` and changes nothing. -/
theorem C5_duplicate_add_conflicts_witness :
    (jobRowA ∈ dbA.jobs ∧ jobRowA.id = stateA.jid) ∧
    add_job dbA stateA = Except.error (StoreError.conflictingId stateA.jid) ∧
    afterAdd dbA stateA = dbA :=
  ⟨⟨by decide, rfl⟩,
    (C5_duplicate_add_conflicts dbA stateA ⟨jobRowA, by decide, rfl⟩).1,
    (C5_duplicate_add_conflicts dbA stateA ⟨jobRowA, by decide, rfl⟩).2⟩

/-- C10: when the stored row for an id exists, `lookup_job` returns `None`
if its blob is the empty byte string, and otherwise a blob that fails to
decode makes `lookup_job` raise the unpickling error to its caller — it
performs no quarantine deletion, unlike the `_get_jobs` scans. -/
theorem C10_lookup_no_quarantine (db : DB) (jid : String) (row : DjangoJob)
    (h : db.getJob jid = some row) :
    (row.job_state = Blob.empty → lookup_job db jid = Except.ok none) ∧
    (row.job_state ≠ Blob.empty → reconstitute_job row.job_state = none →
      lookup_job db jid = Except.error StoreError.unpickle) := by
  constructor
  · intro hempty
    unfold lookup_job
    rw [h]
    simp [hempty, Blob.isTruthy]
  · intro hne hfail
    have ht : row.job_state.isTruthy = true := by
      cases hb : row.job_state with
      | encoded s => rfl
      | corrupt n => rfl
      | empty => exact absurd hb hne
    unfold lookup_job
    rw [h]
    simp [ht, hfail]

/-- C10 witness: in `dbC`, looking up the corrupt row "c" raises the
unpickling error and looking up the empty-blob row "e" returns `None`. -/
theorem C10_lookup_no_quarantine_witness :
    DB.getJob dbC "c" = some jobRowCorrupt ∧
    lookup_job dbC "c" = Except.error StoreError.unpickle ∧
    lookup_job dbC "e" = Except.ok none :=
  ⟨by decide,
    (C10_lookup_no_quarantine dbC "c" jobRowCorrupt (by decide)).2 (by decide) (by decide),
    (C10_lookup_no_quarantine dbC "e" jobRowEmpty (by decide)).1 (by decide)⟩

theorem get_jobs_filtered_fst (db : DB) (p : DjangoJob → Bool) :
    (get_jobs_filtered db p).1 = (scanRows (db.orderedJobs.filter p)).1 := rfl

theorem get_jobs_filtered_snd (db : DB) (p : DjangoJob → Bool) :
    (get_jobs_filtered db p).2 =
      if (scanRows (db.orderedJobs.filter p)).2.isEmpty then db
      else db.deleteJobs (scanRows (db.orderedJobs.filter p)).2 := rfl

theorem fix_paused_mem {l : List JobState} {s : JobState} :
    s ∈ fix_paused_jobs_sorting l ↔ s ∈ l := by
  unfold fix_paused_jobs_sorting
  by_cases hi : (l.findIdx fun j => j.next_run_time.isSome) < l.length
  · simp only [hi, if_true, List.mem_append]
    constructor
    · rintro (h | h)
      · exact List.mem_of_mem_drop h
      · exact List.mem_of_mem_take h
    · intro h
      rw [← List.take_append_drop (l.findIdx fun j => j.next_run_time.isSome) l]
        at h
      exact (List.mem_append.mp h).symm
  · simp [hi]

theorem quarantine_general (db : DB) (p : DjangoJob → Bool) (j : DjangoJob)
    (hu : jobIdsUnique db) (hj : j ∈ db.jobs)
    (hfail : reconstitute_job j.job_state = none) (hp : p j = true) :
    (∀ s ∈ (get_jobs_filtered db p).1,
      ∃ r ∈ db.jobs, r.id ≠ j.id ∧ reconstitute_job r.job_state = some s) ∧
    j.id ∈ scanFailures db p ∧
    lookup_job (get_jobs_filtered db p).2 j.id = Except.ok none := by
  have hjrows : j ∈ db.orderedJobs.filter p :=
    List.mem_filter.mpr ⟨(orderedJobs_perm db).mem_iff.mpr hj, hp⟩
  have hmemfail : j.id ∈ (scanRows (db.orderedJobs.filter p)).2 := by
    rw [scanRows_snd]
    exact List.mem_map.mpr
      ⟨j, List.mem_filter.mpr ⟨hjrows, by simp [hfail]⟩, rfl⟩
  refine ⟨?_, hmemfail, ?_⟩
  · intro s hs
    rw [get_jobs_filtered_fst] at hs
    obtain ⟨r, hr, hdec⟩ := scanRows_fst_mem hs
    have hrjobs : r ∈ db.jobs :=
      (orderedJobs_perm db).mem_iff.mp (List.mem_of_mem_filter hr)
    refine ⟨r, hrjobs, ?_, hdec⟩
    intro hid
    have : r = j := List.inj_on_of_nodup_map hu hrjobs hj hid
    rw [this, hfail] at hdec
    exact absurd hdec (by simp)
  · rw [get_jobs_filtered_snd]
    have hno : (scanRows (db.orderedJobs.filter p)).2.isEmpty = false := by
      cases hl : (scanRows (db.orderedJobs.filter p)).2 with
      | nil => rw [hl] at hmemfail; simp at hmemfail
      | cons a l2 => rfl
    rw [hno]
    simp only [Bool.false_eq_true, if_false]
    have hfind : (db.deleteJobs (scanRows (db.orderedJobs.filter p)).2).jobs.find?
        (fun r => r.id == j.id) = none := by
      rw [List.find?_eq_none]
      intro x hx hbeq
      unfold DB.deleteJobs at hx
      have hkeep := List.of_mem_filter hx
      have hxid : x.id = j.id := eq_of_beq hbeq
      rw [hxid] at hkeep
      have : (scanRows (db.orderedJobs.filter p)).2.contains j.id = true := by
        unfold List.contains
        exact List.elem_iff.mpr hmemfail
      rw [this] at hkeep
      exact absurd hkeep (by simp)
    unfold lookup_job DB.getJob
    rw [hfind]

/-- C3: a record whose state blob fails to decode is quarantined by the
`_get_jobs` scans: in a `get_all_jobs` scan, and in a `get_due_jobs` scan
when the record is due, (a) every returned job decodes from some other
record, (b) the failing record's id is in the set of ids logged and
deleted, and (c) `lookup_job` of that id against the post-scan database
returns `None` (not found); the scans themselves return normally, never
surfacing the decode failure. -/
theorem C3_scan_quarantine (db : DB) (now : Nat) (j : DjangoJob)
    (hu : jobIdsUnique db) (hj : j ∈ db.jobs)
    (hfail : reconstitute_job j.job_state = none) :
    (∀ s ∈ (get_all_jobs db).1,
      ∃ r ∈ db.jobs, r.id ≠ j.id ∧ reconstitute_job r.job_state = some s) ∧
    j.id ∈ scanFailures db (fun _ => true) ∧
    lookup_job (get_all_jobs db).2 j.id = Except.ok none ∧
    (dueFilter now j = true →
      (∀ s ∈ (get_due_jobs db now).1,
        ∃ r ∈ db.jobs, r.id ≠ j.id ∧ reconstitute_job r.job_state = some s) ∧
      j.id ∈ scanFailures db (dueFilter now) ∧
      lookup_job (get_due_jobs db now).2 j.id = Except.ok none) := by
  obtain ⟨ha, hb, hc⟩ := quarantine_general db (fun _ => true) j hu hj hfail rfl
  refine ⟨?_, hb, hc, ?_⟩
  · intro s hs
    exact ha s ((fix_paused_mem).mp hs)
  · intro hdue
    obtain ⟨ha2, hb2, hc2⟩ :=
      quarantine_general db (dueFilter (get_django_internal_datetime now)) j hu hj hfail hdue
    exact ⟨ha2, hb2, hc2⟩

/-- C3 witness: in `dbA` extended with the corrupt row, a `get_all_jobs`
scan logs the corrupt id, and looking it up afterwards returns `None`. -/
theorem C3_scan_quarantine_witness :
    (jobRowCorrupt ∈ DB.jobs { jobs := [jobRowA, jobRowCorrupt], executions := [], nextExecId := 0 } ∧
      reconstitute_job jobRowCorrupt.job_state = none) ∧
    "c" ∈ scanFailures { jobs := [jobRowA, jobRowCorrupt], executions := [], nextExecId := 0 }
      (fun _ => true) ∧
    lookup_job (get_all_jobs { jobs := [jobRowA, jobRowCorrupt], executions := [], nextExecId := 0 }).2
      "c" = Except.ok none :=
  ⟨⟨by decide, rfl⟩,
    (C3_scan_quarantine { jobs := [jobRowA, jobRowCorrupt], executions := [], nextExecId := 0 }
      0 jobRowCorrupt (by unfold jobIdsUnique; decide) (by decide) rfl).2.1,
    (C3_scan_quarantine { jobs := [jobRowA, jobRowCorrupt], executions := [], nextExecId := 0 }
      0 jobRowCorrupt (by unfold jobIdsUnique; decide) (by decide) rfl).2.2.1⟩

/-- C6: for a consistent store, `get_due_jobs now` deletes nothing,
returns exactly the records with `next_run_time <= now` — a permutation of
the decoded states of precisely those rows — sorted ascending by
`next_run_time`, and every returned job indeed has a non-null
`next_run_time <= now`. -/
theorem C6_get_due_jobs (db : DB) (now : Nat) (hc : consistent db) :
    (get_due_jobs db now).2 = db ∧
    ((get_due_jobs db now).1).Perm
      ((db.jobs.filter (dueFilter now)).filterMap
        (fun r => reconstitute_job r.job_state)) ∧
    ((get_due_jobs db now).1).Pairwise stateNrtLe ∧
    ∀ s ∈ (get_due_jobs db now).1, ∃ t, s.next_run_time = some t ∧ t ≤ now := by
  have hq := get_jobs_filtered_all_ok db (dueFilter (get_django_internal_datetime now)) hc
  have h1 : (get_due_jobs db now).1 =
      (db.orderedJobs.filter (dueFilter now)).filterMap
        (fun r => reconstitute_job r.job_state) := by
    unfold get_due_jobs
    rw [hq]
    rfl
  have h2 : (get_due_jobs db now).2 = db := by
    unfold get_due_jobs
    rw [hq]
  refine ⟨h2, ?_, ?_, ?_⟩
  · rw [h1]
    exact states_perm db (dueFilter now)
  · rw [h1]
    exact states_sorted db (dueFilter now) hc
  · intro s hs
    rw [h1] at hs
    obtain ⟨r, hr, hdec⟩ := List.mem_filterMap.mp hs
    have hrjobs : r ∈ db.jobs :=
      (orderedJobs_perm db).mem_iff.mp (List.mem_of_mem_filter hr)
    have hdue : dueFilter now r = true := List.of_mem_filter hr
    obtain ⟨s0, hs0, _, hn0⟩ := hc r hrjobs
    have hss0 : s = s0 := by rw [hdec] at hs0; exact Option.some.inj hs0
    cases hnr : r.next_run_time with
    | none => simp [dueFilter, hnr] at hdue
    | some t =>
      refine ⟨t, ?_, ?_⟩
      · rw [hss0, hn0, hnr]
      · simp [dueFilter, hnr] at hdue
        exact hdue

/-- C6 witness: a two-job consistent store at time 5 keeps the database
unchanged, and returns only the due job "a". -/
theorem C6_get_due_jobs_witness :
    (get_due_jobs { jobs := [jobRowA], executions := [], nextExecId := 0 } 5).2 =
      { jobs := [jobRowA], executions := [], nextExecId := 0 } ∧
    ∀ s ∈ (get_due_jobs { jobs := [jobRowA], executions := [], nextExecId := 0 } 5).1,
      ∃ t, s.next_run_time = some t ∧ t ≤ 5 :=
  ⟨(C6_get_due_jobs { jobs := [jobRowA], executions := [], nextExecId := 0 } 5
      (fun j hj => by
        simp only [List.mem_singleton] at hj
        exact ⟨stateA, by rw [hj]; rfl, by rw [hj]; rfl, by rw [hj]; rfl⟩)).1,
    (C6_get_due_jobs { jobs := [jobRowA], executions := [], nextExecId := 0 } 5
      (fun j hj => by
        simp only [List.mem_singleton] at hj
        exact ⟨stateA, by rw [hj]; rfl, by rw [hj]; rfl, by rw [hj]; rfl⟩)).2.2.2⟩

/-- C7: `get_next_run_time` equals the minimum of the non-null
`next_run_time` values across all records, and is `none` exactly when no
record has a non-null `next_run_time` (in particular it returns `none`,
and does not raise, on the empty store). -/
theorem C7_next_run_time_is_min (db : DB) :
    get_next_run_time db = (db.jobs.filterMap (fun j => j.next_run_time)).min? ∧
    (get_next_run_time db = none ↔ ∀ j ∈ db.jobs, j.next_run_time = none) := by
  have hsp := List.mergeSort_perm (db.jobs.filter (fun j => j.next_run_time.isSome))
    (fun a b => nrtLe a.next_run_time b.next_run_time)
  have hss := List.sorted_mergeSort
    (fun a b c h1 h2 => nrtLe_trans a.next_run_time b.next_run_time c.next_run_time h1 h2)
    (fun a b => nrtLe_total a.next_run_time b.next_run_time)
    (db.jobs.filter (fun j => j.next_run_time.isSome))
  have hmain : get_next_run_time db =
      (db.jobs.filterMap (fun j => j.next_run_time)).min? := by
    simp only [get_next_run_time]
    cases hhead : ((db.jobs.filter (fun j => j.next_run_time.isSome)).mergeSort
        (fun a b => nrtLe a.next_run_time b.next_run_time)).head? with
    | none =>
      have hnil := List.head?_eq_none_iff.mp hhead
      rw [hnil] at hsp
      have hfe : db.jobs.filter (fun j => j.next_run_time.isSome) = [] := hsp.symm.eq_nil
      have hfm : db.jobs.filterMap (fun j => j.next_run_time) = [] := by
        rw [← filterMap_nrt_filter, hfe]
        rfl
      rw [hfm]
      rfl
    | some x =>
      cases hsort : (db.jobs.filter (fun j => j.next_run_time.isSome)).mergeSort
          (fun a b => nrtLe a.next_run_time b.next_run_time) with
      | nil => rw [hsort] at hhead; simp at hhead
      | cons y tail =>
        have hyx : y = x := by rw [hsort] at hhead; exact Option.some.inj hhead
        subst hyx
        have hxmem : y ∈ db.jobs.filter (fun j => j.next_run_time.isSome) := by
          rw [← hsp.mem_iff, hsort]
          simp
        have hysome : y.next_run_time.isSome = true := by
          have := List.mem_filter.mp hxmem
          simpa using this.2
        obtain ⟨t, ht⟩ := Option.isSome_iff_exists.mp hysome
        have hmin : (db.jobs.filterMap (fun j => j.next_run_time)).min? = some t := by
          refine (List.min?_eq_some_iff (fun u => le_refl u)
            (fun u v => min_choice u v) (fun u v w => le_min_iff)).mpr ⟨?_, ?_⟩
          · exact List.mem_filterMap.mpr
              ⟨y, List.mem_of_mem_filter hxmem, by rw [ht]⟩
          · intro b hb
            obtain ⟨r, hr, hrb⟩ := List.mem_filterMap.mp hb
            have hrf : r ∈ db.jobs.filter (fun j => j.next_run_time.isSome) :=
              List.mem_filter.mpr ⟨hr, by simp [hrb]⟩
            have hrs : r ∈ y :: tail := by rw [← hsort, hsp.mem_iff]; exact hrf
            rcases List.mem_cons.mp hrs with hre | hrt
            · rw [hre, ht] at hrb
              exact le_of_eq (Option.some.inj hrb)
            · have hpw := List.pairwise_cons.mp (hsort ▸ hss)
              have hle := hpw.1 r hrt
              rw [ht, hrb] at hle
              simpa [nrtLe] using hle
        rw [hmin]
        show y.next_run_time.map get_apscheduler_datetime = some t
        rw [ht]
        rfl
  refine ⟨hmain, ?_⟩
  rw [hmain, List.min?_eq_none_iff, List.filterMap_eq_nil_iff]

theorem fix_paused_perm (l : List JobState) :
    (fix_paused_jobs_sorting l).Perm l := by
  unfold fix_paused_jobs_sorting
  by_cases hi : (l.findIdx fun j => j.next_run_time.isSome) < l.length
  · simp only [hi, if_true]
    have h1 : (l.drop (l.findIdx fun j => j.next_run_time.isSome) ++
        l.take (l.findIdx fun j => j.next_run_time.isSome)).Perm
        (l.take (l.findIdx fun j => j.next_run_time.isSome) ++
          l.drop (l.findIdx fun j => j.next_run_time.isSome)) :=
      List.perm_append_comm
    rw [List.take_append_drop] at h1
    exact h1
  · simp [hi]

theorem fix_paused_pairwise (l : List JobState) (h : l.Pairwise stateNrtLe) :
    (fix_paused_jobs_sorting l).Pairwise pausedLastLe := by
  unfold fix_paused_jobs_sorting
  by_cases hi : (l.findIdx fun j => j.next_run_time.isSome) < l.length
  · simp only [hi, if_true]
    have htake : ∀ x ∈ l.take (l.findIdx fun j => j.next_run_time.isSome),
        x.next_run_time = none := by
      intro x hx
      obtain ⟨k, hk, hkx⟩ := List.mem_take_iff_getElem.mp hx
      have hklt : k < l.findIdx (fun j => j.next_run_time.isSome) :=
        lt_of_lt_of_le hk (min_le_left _ _)
      have hnp := List.not_of_lt_findIdx hklt
      rw [hkx] at hnp
      simpa using hnp
    have hdrop : ∀ x ∈ l.drop (l.findIdx fun j => j.next_run_time.isSome),
        x.next_run_time.isSome = true := by
      intro x hx
      rw [List.drop_eq_getElem_cons hi] at hx
      rcases List.mem_cons.mp hx with hx | hx
      · rw [hx]
        exact List.findIdx_getElem (w := hi)
      · have hpd : (l.drop (l.findIdx fun j => j.next_run_time.isSome)).Pairwise
            stateNrtLe := h.drop
        rw [List.drop_eq_getElem_cons hi] at hpd
        have hle := (List.pairwise_cons.mp hpd).1 x hx
        have hhead : (l[l.findIdx fun j => j.next_run_time.isSome]).next_run_time.isSome
            = true := List.findIdx_getElem (w := hi)
        obtain ⟨t, ht⟩ := Option.isSome_iff_exists.mp hhead
        unfold stateNrtLe at hle
        rw [ht] at hle
        cases hxn : x.next_run_time with
        | none => rw [hxn] at hle; simp [nrtLe] at hle
        | some u => simp
    refine List.pairwise_append.mpr ⟨?_, ?_, ?_⟩
    · refine (h.drop).imp_of_mem ?_
      intro a b ha hb hab
      obtain ⟨u, hu⟩ := Option.isSome_iff_exists.mp (hdrop b hb)
      obtain ⟨t, ht⟩ := Option.isSome_iff_exists.mp (hdrop a ha)
      unfold stateNrtLe at hab
      rw [ht, hu] at hab
      unfold pausedLastLe
      rw [hu, ht]
      simpa [nrtLe] using hab
    · refine (h.take).imp_of_mem ?_
      intro a b _ hb _
      unfold pausedLastLe
      rw [htake b hb]
      trivial
    · intro a _ b hb
      unfold pausedLastLe
      rw [htake b hb]
      trivial
  · simp only [hi, if_false]
    have heq : (l.findIdx fun j => j.next_run_time.isSome) = l.length :=
      le_antisymm (List.findIdx_le_length _) (not_lt.mp hi)
    have hall : ∀ x ∈ l, x.next_run_time = none := by
      intro x hx
      have := List.findIdx_eq_length.mp heq x hx
      simpa using this
    refine h.imp_of_mem ?_
    intro a b _ hb _
    unfold pausedLastLe
    rw [hall b hb]
    trivial

/-- C8: for a consistent store, `get_all_jobs` deletes nothing, returns a
permutation of the decoded states of all records, ordered so that the
scheduled jobs appear in ascending `next_run_time` order and every paused
job (null `next_run_time`) comes after every scheduled job. -/
theorem C8_all_jobs_paused_last (db : DB) (hc : consistent db) :
    (get_all_jobs db).2 = db ∧
    ((get_all_jobs db).1).Perm
      (db.jobs.filterMap (fun r => reconstitute_job r.job_state)) ∧
    ((get_all_jobs db).1).Pairwise pausedLastLe := by
  have hq := get_jobs_filtered_all_ok db (fun _ => true) hc
  have h1 : (get_all_jobs db).1 =
      fix_paused_jobs_sorting
        (db.orderedJobs.filterMap (fun r => reconstitute_job r.job_state)) := by
    unfold get_all_jobs
    rw [hq, List.filter_true]
  have h2 : (get_all_jobs db).2 = db := by
    unfold get_all_jobs
    rw [hq]
  refine ⟨h2, ?_, ?_⟩
  · rw [h1]
    exact (fix_paused_perm _).trans ((orderedJobs_perm db).filterMap _)
  · rw [h1]
    apply fix_paused_pairwise
    have hs := states_sorted db (fun _ => true) hc
    rw [List.filter_true] at hs
    exact hs

/-- C8 witness: on a store holding a paused job "p" and a scheduled job
"a", `get_all_jobs` leaves the database unchanged and returns the jobs
with every paused job after every scheduled one. -/
theorem C8_all_jobs_paused_last_witness :
    (get_all_jobs { jobs := [jobRowP, jobRowA], executions := [], nextExecId := 0 }).2 =
      { jobs := [jobRowP, jobRowA], executions := [], nextExecId := 0 } ∧
    ((get_all_jobs { jobs := [jobRowP, jobRowA], executions := [], nextExecId := 0 }).1).Pairwise
      pausedLastLe := by
  have hc : consistent { jobs := [jobRowP, jobRowA], executions := [], nextExecId := 0 } := by
    intro j hj
    rcases List.mem_cons.mp hj with hj | hj
    · exact ⟨stateP, by rw [hj]; rfl, by rw [hj]; rfl, by rw [hj]; rfl⟩
    · simp only [List.mem_singleton] at hj
      exact ⟨stateA, by rw [hj]; rfl, by rw [hj]; rfl, by rw [hj]; rfl⟩
  exact ⟨(C8_all_jobs_paused_last _ hc).1, (C8_all_jobs_paused_last _ hc).2.2⟩

theorem save_preserves (db : DB) (jid : String) (ex ex2 : DjangoJobExecution)
    (hu : execsUnique db) (hwf : execTableWF db)
    (hex : db.getExecution jid = Except.ok (some ex))
    (hid : ex2.id = ex.id) (hjob : ex2.job = ex.job) :
    execsUnique (db.saveExecution ex2) ∧ execTableWF (db.saveExecution ex2) ∧
    (db.saveExecution ex2).executions.length = db.executions.length := by
  have hmem := (execsFor_mem (getExecution_ok_some hex)).1
  refine ⟨?_, saveExecution_wf db ex ex2 hwf hmem hid, by simp [DB.saveExecution]⟩
  intro jid2
  show ((db.saveExecution ex2).execsFor jid2).length ≤ 1
  rw [saveExecution_execsFor_length db ex ex2 hwf.1 hmem hid hjob jid2]
  exact hu jid2

theorem append_new_exec (db : DB) (jid : String) (now : Nat) (trig : String)
    (hu : execsUnique db) (hwf : execTableWF db) (hempty : db.execsFor jid = []) :
    execsUnique { db with executions := db.executions ++ [newExecution db jid now trig], nextExecId := db.nextExecId + 1 } ∧
    execTableWF { db with executions := db.executions ++ [newExecution db jid now trig], nextExecId := db.nextExecId + 1 } := by
  constructor
  · intro jid2
    show (List.filter (fun e => e.job == jid2)
        (db.executions ++ [newExecution db jid now trig])).length ≤ 1
    rw [List.filter_append]
    by_cases hj : jid = jid2
    · have h1 : db.executions.filter (fun e => e.job == jid2) = [] := by
        rw [← hj]
        exact hempty
      rw [h1]
      have h2 : (List.filter (fun e => e.job == jid2) [newExecution db jid now trig]).length ≤ 1 :=
        List.length_filter_le _ _
      simpa using h2
    · have h2 : ((newExecution db jid now trig).job == jid2) = false := by
        simp [newExecution]
        exact hj
      rw [List.filter_cons, h2]
      simp only [Bool.false_eq_true, if_false, List.filter_nil, List.append_nil]
      exact hu jid2
  · constructor
    · show (List.map DjangoJobExecution.id
        (db.executions ++ [newExecution db jid now trig])).Nodup
      rw [List.map_append, List.nodup_append]
      refine ⟨hwf.1, by simp, ?_⟩
      intro a ha hb
      simp only [List.map_cons, List.map_nil, List.mem_singleton] at hb
      obtain ⟨e, he, hea⟩ := List.mem_map.mp ha
      have hlt := hwf.2 e he
      rw [hea] at hlt
      rw [hb] at hlt
      exact absurd hlt (by simp [newExecution])
    · intro e he
      rcases List.mem_append.mp he with he | he
      · exact Nat.lt_succ_of_lt (hwf.2 e he)
      · simp only [List.mem_singleton] at he
        rw [he]
        simp [newExecution]

/-- C9: the event bridge maintains at most one execution record per job id
(together with the uniqueness of the autoincrement primary keys): every
handler that returns normally preserves the invariant; moreover the ADDED
handler reuses the existing execution row when one exists — the number of
rows is unchanged — and appends exactly one fresh row only when no row for
the id exists. -/
theorem C9_at_most_one_execution (db : DB) (now : Nat) (ev : JobEvent)
    (hu : execsUnique db) (hwf : execTableWF db) :
    (∀ db2 n, handle_added_job_event db now ev = Except.ok (db2, n) →
      execsUnique db2 ∧ execTableWF db2 ∧
      (db.execsFor ev.job_id ≠ [] → db2.executions.length = db.executions.length) ∧
      (db.execsFor ev.job_id = [] → db2.executions.length = db.executions.length + 1)) ∧
    (∀ db2 n, handle_execution_event db now ev = Except.ok (db2, n) →
      execsUnique db2 ∧ execTableWF db2) ∧
    (∀ db2 n, handle_error_event db ev = Except.ok (db2, n) →
      execsUnique db2 ∧ execTableWF db2) ∧
    (∀ db2 n, handle_modify_event db ev = Except.ok (db2, n) →
      execsUnique db2 ∧ execTableWF db2) := by
  refine ⟨?_, ?_, ?_, ?_⟩
  · intro db2 n h
    unfold handle_added_job_event at h
    cases hg : db.getJob ev.job_id with
    | none => rw [hg] at h; exact absurd h (by simp)
    | some job =>
      rw [hg] at h
      cases hge : db.getExecution ev.job_id with
      | error e => rw [hge] at h; exact absurd h (by simp)
      | ok o =>
        cases o with
        | some ex =>
          rw [hge] at h
          have hp := (Prod.mk.injEq _ _ _ _).mp (Except.ok.inj h)
          obtain ⟨hu2, hwf2, hlen⟩ :=
            save_preserves db ev.job_id ex
              { ex with status := statusSTART, run_time := some now, type := job.trigger }
              hu hwf hge rfl rfl
          have hne : db.execsFor ev.job_id ≠ [] := by
            rw [getExecution_ok_some hge]
            simp
          rw [← hp.1]
          exact ⟨hu2, hwf2, fun _ => hlen, fun hemp => absurd hemp hne⟩
        | none =>
          rw [hge] at h
          have hp := (Prod.mk.injEq _ _ _ _).mp (Except.ok.inj h)
          have hemp := getExecution_ok_none hge
          obtain ⟨hu2, hwf2⟩ :=
            append_new_exec db ev.job_id now job.trigger hu hwf hemp
          rw [← hp.1]
          refine ⟨hu2, hwf2, fun hne => absurd hemp hne, fun _ => ?_⟩
          simp
  · intro db2 n h
    unfold handle_execution_event at h
    by_cases hcode : ev.code ≠ EventCode.executed
    · rw [if_pos hcode] at h
      exact absurd h (by simp)
    · rw [if_neg hcode] at h
      cases hge : db.getExecution ev.job_id with
      | error e => rw [hge] at h; exact absurd h (by simp)
      | ok o =>
        cases o with
        | none =>
          rw [hge] at h
          have hp := (Prod.mk.injEq _ _ _ _).mp (Except.ok.inj h)
          rw [← hp.1]
          exact ⟨hu, hwf⟩
        | some ex =>
          rw [hge] at h
          have hp := (Prod.mk.injEq _ _ _ _).mp (Except.ok.inj h)
          obtain ⟨hu2, hwf2, _⟩ :=
            save_preserves db ev.job_id ex
              { ex with status := statusSUCCESS, finished := some now }
              hu hwf hge rfl rfl
          rw [← hp.1]
          exact ⟨hu2, hwf2⟩
  · intro db2 n h
    unfold handle_error_event at h
    by_cases hcode : ev.code = EventCode.error
    · rw [if_pos hcode] at h
      cases hge : db.getExecution ev.job_id with
      | error e => rw [hge] at h; exact absurd h (by simp)
      | ok o =>
        cases o with
        | none =>
          rw [hge] at h
          have hp := (Prod.mk.injEq _ _ _ _).mp (Except.ok.inj h)
          rw [← hp.1]
          exact ⟨hu, hwf⟩
        | some ex =>
          rw [hge] at h
          have hp := (Prod.mk.injEq _ _ _ _).mp (Except.ok.inj h)
          obtain ⟨hu2, hwf2, _⟩ :=
            save_preserves db ev.job_id ex
              { ex with
                status := statusERROR
                exception := some (match ev.exception with
                  | some e => e
                  | none => "Job " ++ ev.job_id ++ " raised an error!")
                traceback := match ev.exception with
                  | some _ => some ev.traceback
                  | none => none }
              hu hwf hge rfl rfl
          rw [← hp.1]
          exact ⟨hu2, hwf2⟩
    · rw [if_neg hcode] at h
      by_cases hmiss : ev.code = EventCode.missed
      · rw [if_pos hmiss] at h
        cases hge : db.getExecution ev.job_id with
        | error e => rw [hge] at h; exact absurd h (by simp)
        | ok o =>
          cases o with
          | none =>
            rw [hge] at h
            have hp := (Prod.mk.injEq _ _ _ _).mp (Except.ok.inj h)
            rw [← hp.1]
            exact ⟨hu, hwf⟩
          | some ex =>
            rw [hge] at h
            have hp := (Prod.mk.injEq _ _ _ _).mp (Except.ok.inj h)
            obtain ⟨hu2, hwf2, _⟩ :=
              save_preserves db ev.job_id ex
                { ex with
                  status := statusMISSED
                  exception := some ("Run time of job " ++ ev.job_id ++ " was missed!") }
                hu hwf hge rfl rfl
            rw [← hp.1]
            exact ⟨hu2, hwf2⟩
      · rw [if_neg hmiss] at h
        exact absurd h (by simp)
  · intro db2 n h
    unfold handle_modify_event at h
    cases hge : db.getExecution ev.job_id with
    | error e => rw [hge] at h; exact absurd h (by simp)
    | ok o =>
      cases o with
      | none =>
        rw [hge] at h
        have hp := (Prod.mk.injEq _ _ _ _).mp (Except.ok.inj h)
        rw [← hp.1]
        exact ⟨hu, hwf⟩
      | some ex =>
        rw [hge] at h
        cases hg : db.getJob ev.job_id with
        | none => rw [hg] at h; exact absurd h (by simp)
        | some job =>
          rw [hg] at h
          have hp := (Prod.mk.injEq _ _ _ _).mp (Except.ok.inj h)
          obtain ⟨hu2, hwf2, _⟩ :=
            save_preserves db ev.job_id ex
              { ex with run_time := job.next_run_time }
              hu hwf hge rfl rfl
          rw [← hp.1]
          exact ⟨hu2, hwf2⟩

/-- C9 witness: starting from a store holding job "a" and no execution
rows, an ADDED event creates exactly one execution row and the invariant
holds afterwards; the hypotheses hold trivially of the initial store. -/
theorem C9_at_most_one_execution_witness :
    execsUnique { jobs := [jobRowA], executions := [newExecution { jobs := [jobRowA], executions := [], nextExecId := 0 } "a" 7 "DATE"], nextExecId := 1 } ∧
    execTableWF { jobs := [jobRowA], executions := [newExecution { jobs := [jobRowA], executions := [], nextExecId := 0 } "a" 7 "DATE"], nextExecId := 1 } := by
  have hu : execsUnique { jobs := [jobRowA], executions := [], nextExecId := 0 } := by
    intro jid
    simp [DB.execsFor]
  have hwf : execTableWF { jobs := [jobRowA], executions := [], nextExecId := 0 } := by
    constructor
    · simp
    · intro e he
      simp at he
  have happ := (C9_at_most_one_execution { jobs := [jobRowA], executions := [], nextExecId := 0 }
    7 { code := EventCode.added, job_id := "a", exception := none, traceback := "" }
    hu hwf).1
    { jobs := [jobRowA], executions := [newExecution { jobs := [jobRowA], executions := [], nextExecId := 0 } "a" 7 "DATE"], nextExecId := 1 }
    0 rfl
  exact ⟨happ.1, happ.2.1⟩

end RestAPScheduler
